import Mathlib

/-!
Verification development for the RRB NTPC prep portal (a browser mock-exam
application).  The definitions below are a shallow embedding of the
TypeScript source:

* data model                      -- src/types.ts
* finishTest (scoring)            -- src/components/TestInterface.tsx, finishTest
* timer effect and tick           -- src/components/TestInterface.tsx, timer useEffect
* response-map handlers           -- src/components/TestInterface.tsx, handleClearResponse,
                                     handleBookmark
* generateQuestions adapter       -- services/geminiService.ts (generateQuestions,
                                     FALLBACK_QUESTIONS)
* progressive loader              -- App.tsx (loadMoreQuestions, handleRequestMoreQuestions)
* session restore                 -- App.tsx (mount useEffect on rrb_current_session)

Modelling conventions:
* JS `Record<string, T>` objects become association lists `List (String × T)`
  with insertion-order update semantics (`recordSet`); a JS object has
  pairwise-distinct keys, which appears as a `Nodup` hypothesis where needed.
* JS numbers are Nat / Int / Rat; `Number.toFixed(2)` followed by parseFloat
  is modelled as exact rational rounding to the nearest hundredth (`round2`);
  binary floating-point artifacts are not modelled.
* External collaborators (the Gemini JSON parser, localStorage JSON parser,
  fresh-id generator) are parameters of the functions that call them; the
  text clean-up and bracket extraction the adapter performs itself is
  implemented concretely, character by character, from the source.
* Fallible JS code (an expression that can throw) returns `Option`.
-/

/- ------------------------------------------------------------------ -/
/- Data model (src/types.ts)                                           -/
/- ------------------------------------------------------------------ -/

/-- Subject enumeration from src/types.ts. -/
inductive Subject
  | mathematics
  | generalIntelligenceReasoning
  | generalAwareness
deriving DecidableEq, Repr

/-- Difficulty enumeration from src/types.ts. -/
inductive Difficulty
  | easy
  | medium
  | hard
deriving DecidableEq, Repr

/-- Question record from src/types.ts (the mutable cachedHint field is not
needed by any claim and is omitted). -/
structure Question where
  id : String
  text : String
  options : List String
  correctAnswer : Nat
  subject : Subject
  topic : String
  difficulty : Difficulty
  explanation : String
  pyqTag : Option String := none
deriving DecidableEq, Repr

/-- UserResponse.status enumeration from src/types.ts. -/
inductive RStatus
  | answered
  | notAnswered
  | markedForReview
  | notVisited
  | answeredAndMarked
deriving DecidableEq, Repr

/-- UserResponse record from src/types.ts.  `selectedOption = none` models
`selectedOption: null`. -/
structure UserResponse where
  questionId : String
  selectedOption : Option Nat
  status : RStatus
  timeSpentSeconds : Nat
  visited : Bool
  isBookmarked : Bool
deriving DecidableEq, Repr

/-- The response map `Record<string, UserResponse>` as an association list in
insertion order.  A real JS object has pairwise distinct keys. -/
abbrev RMap := List (String × UserResponse)

/-- Property access `m[k]`: the value at the first (in a JS object: the only)
entry with key `k`. -/
def recordGet (m : RMap) (k : String) : Option UserResponse :=
  match m with
  | [] => none
  | p :: rest => if p.1 == k then some p.2 else recordGet rest k

/-- JS object update `{ ...m, [k]: v }`: overwrites the entry with key `k`
in place, or appends a new entry if the key is absent. -/
def recordSet (m : RMap) (k : String) (v : UserResponse) : RMap :=
  if m.any (fun p => p.1 == k) then
    m.map (fun p => if p.1 == k then (k, v) else p)
  else m ++ [(k, v)]

/- ------------------------------------------------------------------ -/
/- Scoring (src/components/TestInterface.tsx, finishTest)              -/
/- ------------------------------------------------------------------ -/

/-- `parseFloat(x.toFixed(2))` modelled as exact rounding of a rational to
the nearest hundredth. -/
def round2 (q : ℚ) : ℚ := (round (q * 100) : ℤ) / 100

/-- TestResult from src/types.ts (date and aiAnalysis omitted: produced
outside the scoring computation). -/
structure TestResult where
  totalQuestions : Nat
  attempted : Nat
  correct : Nat
  wrong : Int
  score : ℚ
  accuracy : ℚ
  timeTakenSeconds : Int
  responses : RMap
deriving DecidableEq, Repr

/-- The `const attempted` binding of finishTest: the number of records of
the response map whose selectedOption is not null. -/
def attemptedCount (responses : RMap) : Nat :=
  ((responses.map Prod.snd).filter (fun r => r.selectedOption.isSome)).length

/-- The `const correct` binding of finishTest: a fold over the loaded
questions counting those whose stored record selects the correct option. -/
def correctCount (questions : List Question) (responses : RMap) : Nat :=
  questions.foldl (fun acc q =>
    match recordGet responses q.id with
    | none => acc
    | some r => acc + (if r.selectedOption == some q.correctAnswer then 1 else 0)) 0

/-- finishTest (TestInterface.tsx lines 265-289): computes the TestResult
from the loaded question list, the response map, and the clock. -/
def finishTest (questions : List Question) (responses : RMap)
    (durationMinutes timeLeft : Int) : TestResult :=
  { totalQuestions := questions.length
    attempted := attemptedCount responses
    correct := correctCount questions responses
    wrong := (attemptedCount responses : Int) - (correctCount questions responses : Int)
    score := round2 ((correctCount questions responses : ℚ)
      - ((attemptedCount responses : Int) - (correctCount questions responses : Int) : ℚ) * (1 / 3))
    accuracy := if attemptedCount responses > 0
      then round2 (((correctCount questions responses : ℚ) / (attemptedCount responses : ℚ)) * 100)
      else 0
    timeTakenSeconds := durationMinutes * 60 - timeLeft
    responses := responses }

/-- The predicate "the record stored for `q` selects the correct option of
`q`", as tested inside the `correct` fold of finishTest. -/
def answeredCorrectly (responses : RMap) (q : Question) : Bool :=
  match recordGet responses q.id with
  | none => false
  | some r => r.selectedOption == some q.correctAnswer

lemma correctCount_foldl (responses : RMap) :
    ∀ (questions : List Question) (init : Nat),
      questions.foldl (fun acc q =>
        match recordGet responses q.id with
        | none => acc
        | some r => acc + (if r.selectedOption == some q.correctAnswer then 1 else 0)) init
      = init + questions.countP (answeredCorrectly responses) := by
  intro questions
  induction questions with
  | nil => intro init; simp
  | cons q rest ih =>
    intro init
    rw [List.foldl_cons, List.countP_cons, ih]
    unfold answeredCorrectly
    cases h : recordGet responses q.id with
    | none => simp [h]
    | some r =>
      simp only [h]
      by_cases hs : (r.selectedOption == some q.correctAnswer) = true
      · simp [hs]; ring
      · simp [hs]

lemma correctCount_eq (questions : List Question) (responses : RMap) :
    correctCount questions responses = questions.countP (answeredCorrectly responses) := by
  unfold correctCount
  rw [correctCount_foldl]
  omega

lemma attemptedCount_eq (responses : RMap) :
    attemptedCount responses
      = (responses.map Prod.snd).countP (fun r => r.selectedOption.isSome) := by
  unfold attemptedCount
  rw [List.countP_eq_length_filter]

/-- C1.  For every finished session with response map `responses` and loaded
question list `questions`, the produced TestResult satisfies: attempted is
the number of records whose selectedOption is not none; correct is the
number of questions whose stored record selects their correct option;
wrong = attempted - correct; score = correct - wrong/3 rounded to two
decimal places; accuracy is 0 when attempted = 0 and otherwise
100*correct/attempted rounded to two decimal places. -/
theorem finishTest_scoring_rule (questions : List Question) (responses : RMap)
    (dm tl : Int) :
    (finishTest questions responses dm tl).attempted
        = (responses.map Prod.snd).countP (fun r => r.selectedOption.isSome)
    ∧ (finishTest questions responses dm tl).correct
        = questions.countP (answeredCorrectly responses)
    ∧ (finishTest questions responses dm tl).wrong
        = ((finishTest questions responses dm tl).attempted : Int)
          - ((finishTest questions responses dm tl).correct : Int)
    ∧ (finishTest questions responses dm tl).score
        = round2 (((finishTest questions responses dm tl).correct : ℚ)
          - ((finishTest questions responses dm tl).wrong : ℚ) / 3)
    ∧ (finishTest questions responses dm tl).accuracy
        = (if (finishTest questions responses dm tl).attempted = 0 then 0
           else round2 (100 * ((finishTest questions responses dm tl).correct : ℚ)
             / ((finishTest questions responses dm tl).attempted : ℚ))) := by
  refine ⟨attemptedCount_eq .., correctCount_eq .., rfl, ?_, ?_⟩
  · simp only [finishTest]
    congr 1
    push_cast
    ring
  · simp only [finishTest]
    by_cases h : attemptedCount responses = 0
    · simp [h]
    · have hpos : attemptedCount responses > 0 := by omega
      rw [if_pos hpos, if_neg h]
      congr 1
      ring

/-- handleClearResponse (TestInterface.tsx lines 214-224): writes the
record for the current question with selectedOption null and status
Not Answered, spreading the previous record.  When the record is absent,
the JS spread of undefined would create a partial object holding only the
two written fields; that unrepresentable corner is modelled by the default
record below and is outside every theorem (they all assume the record
exists, as the app guarantees for loaded questions). -/
def handleClearResponse (responses : RMap) (qId : String) : RMap :=
  recordSet responses qId
    (match recordGet responses qId with
     | some r => { r with selectedOption := none, status := RStatus.notAnswered }
     | none =>
       { questionId := qId, selectedOption := none, status := RStatus.notAnswered,
         timeSpentSeconds := 0, visited := false, isBookmarked := false })

/-- handleBookmark (TestInterface.tsx lines 203-212): flips the current
isBookmarked field of the record.  The source reads `prev[qId].isBookmarked` without a
guard, so a missing record is a thrown TypeError, modelled as `none`. -/
def handleBookmark (responses : RMap) (qId : String) : Option RMap :=
  match recordGet responses qId with
  | none => none
  | some r => some (recordSet responses qId { r with isBookmarked := !r.isBookmarked })

lemma recordGet_any {m : RMap} {k : String} {r : UserResponse}
    (h : recordGet m k = some r) : m.any (fun p => p.1 == k) = true := by
  induction m with
  | nil => simp [recordGet] at h
  | cons p rest ih =>
    rw [recordGet] at h
    by_cases hp : (p.1 == k) = true
    · simp [List.any_cons, hp]
    · rw [if_neg hp] at h
      simp [List.any_cons, ih h]

lemma recordGet_map_self {m : RMap} {k : String} {r : UserResponse} (v : UserResponse)
    (h : recordGet m k = some r) :
    recordGet (m.map (fun p => if p.1 == k then (k, v) else p)) k = some v := by
  induction m with
  | nil => simp [recordGet] at h
  | cons p rest ih =>
    rw [recordGet] at h
    by_cases hp : (p.1 == k) = true
    · simp only [List.map_cons, if_pos hp]
      rw [recordGet, if_pos (by simp)]
    · rw [if_neg hp] at h
      simp only [List.map_cons, if_neg hp]
      rw [recordGet, if_neg hp]
      exact ih h

lemma recordGet_map_other (m : RMap) (k : String) (v : UserResponse)
    (k' : String) (hne : k' ≠ k) :
    recordGet (m.map (fun p => if p.1 == k then (k, v) else p)) k' = recordGet m k' := by
  induction m with
  | nil => simp [recordGet]
  | cons p rest ih =>
    by_cases hp : (p.1 == k) = true
    · have hp1 : p.1 = k := by simpa using hp
      simp only [List.map_cons, if_pos hp]
      rw [recordGet, recordGet]
      have hkk : (k == k') = false := by
        simp [BEq.comm]
        exact fun hc => hne hc.symm
      have hpk : (p.1 == k') = false := by
        rw [hp1]
        exact hkk
      rw [if_neg (by simp [hkk]), if_neg (by simp [hpk])]
      exact ih
    · simp only [List.map_cons, if_neg hp]
      rw [recordGet, recordGet]
      by_cases hq : (p.1 == k') = true
      · rw [if_pos hq, if_pos hq]
      · rw [if_neg hq, if_neg hq]
        exact ih

lemma recordGet_append_other (m : RMap) (k : String) (v : UserResponse)
    (k' : String) (hne : k' ≠ k) :
    recordGet (m ++ [(k, v)]) k' = recordGet m k' := by
  induction m with
  | nil =>
    rw [List.nil_append, recordGet, recordGet]
    have : (k == k') = false := by
      simp
      exact fun hc => hne hc.symm
    rw [if_neg (by simp [this]), recordGet]
  | cons p rest ih =>
    rw [List.cons_append, recordGet, recordGet]
    by_cases hq : (p.1 == k') = true
    · rw [if_pos hq, if_pos hq]
    · rw [if_neg hq, if_neg hq]
      exact ih

lemma recordSet_get_self {m : RMap} {k : String} {r : UserResponse} (v : UserResponse)
    (h : recordGet m k = some r) :
    recordGet (recordSet m k v) k = some v := by
  unfold recordSet
  rw [if_pos (recordGet_any h)]
  exact recordGet_map_self v h

lemma recordSet_get_other (m : RMap) (k : String) (v : UserResponse)
    (k' : String) (hne : k' ≠ k) :
    recordGet (recordSet m k v) k' = recordGet m k' := by
  unfold recordSet
  by_cases hc : m.any (fun p => p.1 == k) = true
  · rw [if_pos hc]
    exact recordGet_map_other m k v k' hne
  · rw [if_neg hc]
    exact recordGet_append_other m k v k' hne

/-- C9.  Clearing the response of the current question rewrites its record
to selectedOption none and status Not Answered (not Not Visited), leaves
the visited flag of the record, bookmark flag and time-spent counter untouched,
and leaves every other record of the map unchanged. -/
theorem clearResponse_effect (responses : RMap) (qId : String) (r : UserResponse)
    (h : recordGet responses qId = some r) :
    recordGet (handleClearResponse responses qId) qId
      = some { r with selectedOption := none, status := RStatus.notAnswered }
    ∧ ({ r with selectedOption := none, status := RStatus.notAnswered}
        : UserResponse).status ≠ RStatus.notVisited
    ∧ ({ r with selectedOption := none, status := RStatus.notAnswered}
        : UserResponse).visited = r.visited
    ∧ ({ r with selectedOption := none, status := RStatus.notAnswered}
        : UserResponse).isBookmarked = r.isBookmarked
    ∧ ({ r with selectedOption := none, status := RStatus.notAnswered}
        : UserResponse).timeSpentSeconds = r.timeSpentSeconds
    ∧ ∀ k, k ≠ qId → recordGet (handleClearResponse responses qId) k
        = recordGet responses k := by
  have hdef : handleClearResponse responses qId
      = recordSet responses qId
          { r with selectedOption := none, status := RStatus.notAnswered } := by
    unfold handleClearResponse
    rw [h]
  refine ⟨?_, by simp, rfl, rfl, rfl, ?_⟩
  · rw [hdef]
    exact recordSet_get_self _ h
  · intro k hk
    rw [hdef]
    exact recordSet_get_other responses qId _ k hk

/-- Witness for clearResponse_effect at a concrete two-entry map. -/
theorem clearResponse_effect_witness :
    let r1 : UserResponse :=
      { questionId := "a", selectedOption := some 2, status := RStatus.answered,
        timeSpentSeconds := 7, visited := true, isBookmarked := true }
    let r2 : UserResponse :=
      { questionId := "b", selectedOption := none, status := RStatus.notVisited,
        timeSpentSeconds := 0, visited := false, isBookmarked := false }
    let rs : RMap := [("a", r1), ("b", r2)]
    let keyA : String := "a"
    recordGet (handleClearResponse rs keyA) keyA
      = some { r1 with selectedOption := none, status := RStatus.notAnswered }
    ∧ ({ r1 with selectedOption := none, status := RStatus.notAnswered}
        : UserResponse).status ≠ RStatus.notVisited
    ∧ ({ r1 with selectedOption := none, status := RStatus.notAnswered}
        : UserResponse).visited = r1.visited
    ∧ ({ r1 with selectedOption := none, status := RStatus.notAnswered}
        : UserResponse).isBookmarked = r1.isBookmarked
    ∧ ({ r1 with selectedOption := none, status := RStatus.notAnswered}
        : UserResponse).timeSpentSeconds = r1.timeSpentSeconds
    ∧ ∀ k, k ≠ keyA → recordGet (handleClearResponse rs keyA) k = recordGet rs k := by
  intro r1 r2 rs keyA
  exact clearResponse_effect rs keyA r1 (by decide)

lemma recordGet_of_mem_nodup {m : RMap} (hnodup : (m.map Prod.fst).Nodup)
    {p : String × UserResponse} (hp : p ∈ m) : recordGet m p.1 = some p.2 := by
  induction m with
  | nil => cases hp
  | cons q rest ih =>
    rcases List.mem_cons.mp hp with hhead | htail
    · rw [hhead, recordGet, if_pos (by simp)]
    · rw [recordGet]
      have hq1 : (q.1 == p.1) = false := by
        rw [List.map_cons, List.nodup_cons] at hnodup
        have : p.1 ∈ rest.map Prod.fst := List.mem_map.mpr ⟨p, htail, rfl⟩
        have hne : q.1 ≠ p.1 := fun hc => hnodup.1 (hc ▸ this)
        simpa using hne
      rw [if_neg (by simp [hq1])]
      exact ih (by rw [List.map_cons, List.nodup_cons] at hnodup; exact hnodup.2) htail

lemma handleBookmark_eq {m : RMap} {qId : String} {r : UserResponse}
    (h : recordGet m qId = some r) :
    handleBookmark m qId
      = some (recordSet m qId { r with isBookmarked := !r.isBookmarked }) := by
  unfold handleBookmark
  rw [h]

/-- C10.  For a current question whose record exists, toggling the bookmark
succeeds, modifies only the isBookmarked field of that record, leaves every
other record unchanged, and toggling twice restores the response map
exactly. -/
theorem bookmark_toggle_involutive (responses : RMap) (qId : String)
    (r : UserResponse)
    (hnodup : (responses.map Prod.fst).Nodup)
    (h : recordGet responses qId = some r) :
    ∃ m2, handleBookmark responses qId = some m2
      ∧ recordGet m2 qId = some { r with isBookmarked := !r.isBookmarked }
      ∧ (∀ k, k ≠ qId → recordGet m2 k = recordGet responses k)
      ∧ handleBookmark m2 qId = some responses := by
  refine ⟨recordSet responses qId { r with isBookmarked := !r.isBookmarked },
    handleBookmark_eq h, recordSet_get_self _ h,
    fun k hk => recordSet_get_other responses qId _ k hk, ?_⟩
  have hget2 : recordGet (recordSet responses qId
      { r with isBookmarked := !r.isBookmarked }) qId
      = some { r with isBookmarked := !r.isBookmarked } :=
    recordSet_get_self _ h
  rw [handleBookmark_eq hget2]
  congr 1
  have hval : ({ { r with isBookmarked := !r.isBookmarked }
      with isBookmarked := !({ r with isBookmarked := !r.isBookmarked }
        : UserResponse).isBookmarked } : UserResponse) = r := by
    obtain ⟨a, b, c, d, e, f⟩ := r
    simp
  rw [hval]
  have hany : responses.any (fun p => p.1 == qId) = true := recordGet_any h
  unfold recordSet
  rw [if_pos hany]
  have hget2m : recordGet (responses.map
      (fun p => if p.1 == qId then (qId, { r with isBookmarked := !r.isBookmarked }) else p)) qId
      = some { r with isBookmarked := !r.isBookmarked } :=
    recordGet_map_self _ h
  have hany2 : (responses.map
      (fun p => if p.1 == qId then (qId, { r with isBookmarked := !r.isBookmarked }) else p)).any
      (fun p => p.1 == qId) = true :=
    recordGet_any hget2m
  rw [if_pos hany2, List.map_map]
  have hpt : ∀ p ∈ responses,
      ((fun p => if p.1 == qId then (qId, r) else p) ∘
       (fun p => if p.1 == qId then (qId, { r with isBookmarked := !r.isBookmarked }) else p)) p
      = p := by
    intro p hp
    by_cases hpk : (p.1 == qId) = true
    · have hp1 : p.1 = qId := by simpa using hpk
      have hval2 : p.2 = r := by
        have := recordGet_of_mem_nodup hnodup hp
        rw [hp1, h] at this
        exact (Option.some_inj.mp this).symm
      simp only [Function.comp_apply, if_pos hpk]
      rw [if_pos (by simp)]
      rw [← hp1, ← hval2]
    · simp only [Function.comp_apply, if_neg hpk]
  rw [List.map_congr_left hpt]
  simp

/-- Witness for bookmark_toggle_involutive at a concrete two-entry map. -/
theorem bookmark_toggle_involutive_witness :
    let r1 : UserResponse :=
      { questionId := "a", selectedOption := some 2, status := RStatus.answered,
        timeSpentSeconds := 7, visited := true, isBookmarked := false }
    let r2 : UserResponse :=
      { questionId := "b", selectedOption := none, status := RStatus.notVisited,
        timeSpentSeconds := 0, visited := false, isBookmarked := true }
    let rs : RMap := [("a", r1), ("b", r2)]
    let keyB : String := "b"
    ∃ m2, handleBookmark rs keyB = some m2
      ∧ recordGet m2 keyB = some { r2 with isBookmarked := !r2.isBookmarked }
      ∧ (∀ k, k ≠ keyB → recordGet m2 k = recordGet rs k)
      ∧ handleBookmark m2 keyB = some rs := by
  intro r1 r2 rs keyB
  exact bookmark_toggle_involutive rs keyB r2 (by decide) (by decide)

/- ------------------------------------------------------------------ -/
/- Countdown timer (TestInterface.tsx, timer useEffect lines 120-142)  -/
/- ------------------------------------------------------------------ -/

/-- What the timer useEffect body does when it runs. -/
inductive TimerEffectResult
  | noTimer
  | submitted
  | intervalScheduled
deriving DecidableEq, Repr

/-- The timer useEffect body (TestInterface.tsx lines 120-142), decision
part, translated guard for guard:

  if (isPaused || timeLeft <= 0) return;
  if (timeLeft <= 0) { finishTest(); return; }
  setInterval(tick body, 1000)
-/
def timerEffect (isPaused : Bool) (timeLeft : Int) : TimerEffectResult :=
  if isPaused || timeLeft ≤ 0 then TimerEffectResult.noTimer
  else if timeLeft ≤ 0 then TimerEffectResult.submitted
  else TimerEffectResult.intervalScheduled

/-- The setInterval callback (TestInterface.tsx lines 127-140): decrements
timeLeft by one and, when the current question exists, bumps the
timeSpentSeconds of its record.  When the record is absent the JS spread of undefined
would build a partial object; as in handleClearResponse that corner is
modelled with defaults and `(prev\x5bqId\x5d?.timeSpentSeconds || 0) + 1 = 1`. -/
def tick (questions : List Question) (currentQuestionIndex : Nat)
    (timeLeft : Int) (responses : RMap) : Int × RMap :=
  let t := timeLeft - 1
  match questions[currentQuestionIndex]? with
  | none => (t, responses)
  | some q =>
    match recordGet responses q.id with
    | some r => (t, recordSet responses q.id
        { r with timeSpentSeconds := r.timeSpentSeconds + 1 })
    | none => (t, recordSet responses q.id
        { questionId := q.id, selectedOption := none, status := RStatus.notVisited,
          timeSpentSeconds := 1, visited := false, isBookmarked := false })

/-- C3 (code_bug evidence).  Each tick does decrement the remaining time by
one, but the forced submission at zero never happens: the effect guard
`isPaused || timeLeft <= 0` returns before the `timeLeft <= 0` submission
branch can run, so that branch is unreachable; in particular at
timeLeft = 0 in a running session the effect does nothing instead of
submitting. -/
theorem timer_timeout_never_submits :
    (∀ (questions : List Question) (idx : Nat) (timeLeft : Int) (responses : RMap),
        (tick questions idx timeLeft responses).1 = timeLeft - 1)
    ∧ (∀ (isPaused : Bool) (timeLeft : Int),
        timerEffect isPaused timeLeft ≠ TimerEffectResult.submitted)
    ∧ timerEffect false 0 = TimerEffectResult.noTimer := by
  refine ⟨?_, ?_, by decide⟩
  · intro questions idx timeLeft responses
    unfold tick
    rcases questions[idx]? with _ | q
    · rfl
    · rcases hr : recordGet responses q.id with _ | r
      · simp [hr]
      · simp [hr]
  · intro isPaused timeLeft
    unfold timerEffect
    by_cases h1 : (isPaused || decide (timeLeft ≤ 0)) = true
    · rw [if_pos h1]
      intro hc
      cases hc
    · rw [if_neg h1]
      have h2 : ¬ timeLeft ≤ 0 := by
        intro hc
        exact h1 (by simp [hc])
      rw [if_neg h2]
      intro hc
      cases hc

/- ------------------------------------------------------------------ -/
/- Session restore (App.tsx mount useEffect)                           -/
/- ------------------------------------------------------------------ -/

/-- The persisted snapshot record written to localStorage under
rrb_current_session: responses, timeLeft and a timestamp. -/
structure SessionSnapshot where
  responses : RMap
  timeLeft : Int
  timestamp : Int
deriving DecidableEq, Repr

/-- The mount useEffect of App.tsx (lines 1016-1029 in the concatenated
source): reads the stored string, JSON.parses it (parse failure = thrown
exception = `none` from the parse oracle), offers the snapshot for resume
only if it is less than 24 hours old, and otherwise removes the stored
item.  Returns (resume offer, whether the stored item was removed). -/
def checkSavedSession (parseSnap : String → Option SessionSnapshot)
    (stored : Option String) (now : Int) : Option SessionSnapshot × Bool :=
  match stored with
  | none => (none, false)
  | some s =>
    match parseSnap s with
    | none => (none, true)
    | some parsed =>
      if now - parsed.timestamp < 24 * 60 * 60 * 1000 then (some parsed, false)
      else (none, true)

/-- C7.  A resume is offered exactly when a stored snapshot parses and its
timestamp is within 24 hours of the current time (age strictly below
24*60*60*1000 ms, as the source computes it); a snapshot that fails to
parse, or whose age is at least 24 hours, is removed from storage and no
resume is offered. -/
theorem savedSession_restore_rule (parseSnap : String → Option SessionSnapshot)
    (stored : Option String) (now : Int) :
    ((checkSavedSession parseSnap stored now).1.isSome
      ↔ ∃ s snap, stored = some s ∧ parseSnap s = some snap
          ∧ now - snap.timestamp < 24 * 60 * 60 * 1000)
    ∧ (∀ s, stored = some s → parseSnap s = none →
        checkSavedSession parseSnap stored now = (none, true))
    ∧ (∀ s snap, stored = some s → parseSnap s = some snap →
        24 * 60 * 60 * 1000 ≤ now - snap.timestamp →
        checkSavedSession parseSnap stored now = (none, true)) := by
  refine ⟨?_, ?_, ?_⟩
  · constructor
    · intro h
      match hs : stored with
      | none => simp [checkSavedSession] at h
      | some s =>
        match hp : parseSnap s with
        | none => simp [checkSavedSession, hp] at h
        | some parsed =>
          by_cases ht : now - parsed.timestamp < 24 * 60 * 60 * 1000
          · exact ⟨s, parsed, rfl, hp, ht⟩
          · have ht2 : ¬ now - parsed.timestamp < 86400000 := by omega
            simp [checkSavedSession, hp, ht2] at h
    · rintro ⟨s, snap, hs, hp, ht⟩
      rw [hs]
      have ht2 : now - snap.timestamp < 86400000 := by omega
      simp [checkSavedSession, hp, ht2]
  · intro s hs hp
    rw [hs]
    simp [checkSavedSession, hp]
  · intro s snap hs hp ht
    rw [hs]
    have ht2 : ¬ now - snap.timestamp < 86400000 := by omega
    simp [checkSavedSession, hp, ht2]

/-- Witness for savedSession_restore_rule: a parse oracle with one good and
one stale snapshot, checked at both an in-window and an out-of-window age. -/
theorem savedSession_restore_rule_witness :
    let snapFresh : SessionSnapshot :=
      { responses := [], timeLeft := 100, timestamp := 1000 }
    let sFresh : String := "fresh"
    let sJunk : String := "junk"
    let parseSnap : String → Option SessionSnapshot :=
      fun s => if s = sFresh then some snapFresh else none
    ((checkSavedSession parseSnap (some sFresh) 2000).1.isSome
      ↔ ∃ s snap, (some sFresh : Option String) = some s ∧ parseSnap s = some snap
          ∧ 2000 - snap.timestamp < 24 * 60 * 60 * 1000)
    ∧ (∀ s, (some sJunk : Option String) = some s → parseSnap s = none →
        checkSavedSession parseSnap (some sJunk) 2000 = (none, true))
    ∧ (∀ s snap, (some sFresh : Option String) = some s → parseSnap s = some snap →
        24 * 60 * 60 * 1000 ≤ 90000000000 - snap.timestamp →
        checkSavedSession parseSnap (some sFresh) 90000000000 = (none, true)) := by
  intro snapFresh sFresh sJunk parseSnap
  exact ⟨(savedSession_restore_rule parseSnap (some sFresh) 2000).1,
    (savedSession_restore_rule parseSnap (some sJunk) 2000).2.1,
    (savedSession_restore_rule parseSnap (some sFresh) 90000000000).2.2⟩

/- ------------------------------------------------------------------ -/
/- Question-set merge (App.tsx, loadMoreQuestions setQuestions update)  -/
/- ------------------------------------------------------------------ -/

/-- The setQuestions functional update of loadMoreQuestions (App.tsx):

  const existingIds = new Set(prev.map(q => q.id));
  const filteredNew = newQs.filter(q => !existingIds.has(q.id));
  return [...prev, ...filteredNew];
-/
def mergeQuestions (prev newQs : List Question) : List Question :=
  let existingIds := prev.map (fun q => q.id)
  let filteredNew := newQs.filter (fun q => !(existingIds.contains q.id))
  prev ++ filteredNew

/-- C5 (amended).  During a session the merge step only appends (never
removes a question), and when the incoming provider batch itself carries
pairwise distinct ids the merged set keeps pairwise distinct ids even when
the batch repeats ids already present.  The length bound holds only under
the extra premise that the batch fits the remaining budget
(loaded + batch length stays within the configured total): the loader
requests batchSize = min(total - loaded, 5), but nothing truncates an
oversized batch, so a provider batch larger than requested pushes the
active set beyond the configured total (see the counterexample above). -/
theorem mergeQuestions_invariant (prev newQs : List Question) (total : Nat)
    (hprev : (prev.map (fun q => q.id)).Nodup)
    (hnew : (newQs.map (fun q => q.id)).Nodup)
    (hbudget : prev.length + newQs.length ≤ total) :
    (∃ tail, mergeQuestions prev newQs = prev ++ tail)
    ∧ ((mergeQuestions prev newQs).map (fun q => q.id)).Nodup
    ∧ (mergeQuestions prev newQs).length ≤ total := by
  refine ⟨?_, ?_, ?_⟩
  · unfold mergeQuestions
    exact ⟨_, rfl⟩
  · unfold mergeQuestions
    rw [List.map_append]
    apply List.Nodup.append hprev
    · have hsubl : List.Sublist
          ((newQs.filter (fun q => !((prev.map (fun q => q.id)).contains q.id))).map
            (fun q => q.id))
          (newQs.map (fun q => q.id)) :=
        (List.filter_sublist newQs).map (fun q => q.id)
      exact hnew.sublist hsubl
    · intro a haprev hanew
      rcases List.mem_map.mp hanew with ⟨q, hqmem, hqid⟩
      rcases List.mem_filter.mp hqmem with ⟨_, hqpred⟩
      simp at hqpred
      rcases List.mem_map.mp (hqid ▸ haprev) with ⟨x, hxmem, hxid⟩
      exact hqpred x hxmem hxid
  · unfold mergeQuestions
    rw [List.length_append]
    have := List.length_filter_le
      (fun q => !((prev.map (fun q => q.id)).contains q.id)) newQs
    omega

/-- Witness for mergeQuestions_invariant: a two-question set merged with a
batch repeating one existing id. -/
theorem mergeQuestions_invariant_witness :
    let qa : Question :=
      { id := "a", text := "t1", options := [], correctAnswer := 0,
        subject := Subject.mathematics, topic := "x",
        difficulty := Difficulty.easy, explanation := "e" }
    let qb : Question :=
      { id := "b", text := "t2", options := [], correctAnswer := 1,
        subject := Subject.generalAwareness, topic := "y",
        difficulty := Difficulty.medium, explanation := "e" }
    let qa2 : Question :=
      { id := "a", text := "t3", options := [], correctAnswer := 2,
        subject := Subject.mathematics, topic := "z",
        difficulty := Difficulty.hard, explanation := "e" }
    let qc : Question :=
      { id := "c", text := "t4", options := [], correctAnswer := 3,
        subject := Subject.generalIntelligenceReasoning, topic := "w",
        difficulty := Difficulty.easy, explanation := "e" }
    (∃ tail, mergeQuestions [qa, qb] [qa2, qc] = [qa, qb] ++ tail)
    ∧ ((mergeQuestions [qa, qb] [qa2, qc]).map (fun q => q.id)).Nodup
    ∧ (mergeQuestions [qa, qb] [qa2, qc]).length ≤ 10 := by
  intro qa qb qa2 qc
  exact mergeQuestions_invariant [qa, qb] [qa2, qc] 10
    (by decide) (by decide) (by decide)

/- ------------------------------------------------------------------ -/
/- Content provider adapter (services/geminiService.ts)                -/
/- ------------------------------------------------------------------ -/

/-- Char-list test: pat is an initial segment of l. -/
def beginsWith : List Char → List Char → Bool
  | [], _ => true
  | _ :: _, [] => false
  | p :: ps, c :: cs => p == c && beginsWith ps cs

/-- Recursion core of `replaceAll`.  The fuel argument only makes the
recursion structural (each step consumes at least one character, so
`l.length` fuel always suffices); it never changes the result. -/
def replaceAllFuel (pat rep : List Char) : Nat → List Char → List Char
  | _, [] => []
  | 0, l => l
  | fuel + 1, c :: rest =>
    if pat ≠ [] ∧ beginsWith pat (c :: rest) = true then
      rep ++ replaceAllFuel pat rep fuel (rest.drop (pat.length - 1))
    else c :: replaceAllFuel pat rep fuel rest

/-- JS `String.replace` with a global literal pattern, over char lists:
replaces every non-overlapping occurrence of pat, scanning left to right. -/
def replaceAll (pat rep : List Char) (l : List Char) : List Char :=
  replaceAllFuel pat rep l.length l

/-- The whitespace JS `String.trim` removes (common ASCII subset). -/
def isJsWhitespace (c : Char) : Bool :=
  c == ' ' || c == '\n' || c == '\t' || c == '\r'

/-- JS `String.trim` over char lists. -/
def trimChars (l : List Char) : List Char :=
  ((l.dropWhile isJsWhitespace).reverse.dropWhile isJsWhitespace).reverse

/-- JS `String.indexOf(c)` over char lists (none models -1). -/
def firstIndexOf (l : List Char) (c : Char) : Option Nat :=
  match l with
  | [] => none
  | x :: xs => if x == c then some 0 else (firstIndexOf xs c).map (fun i => i + 1)

/-- JS `String.lastIndexOf(c)` over char lists (none models -1). -/
def lastIndexOf (l : List Char) (c : Char) : Option Nat :=
  (firstIndexOf l.reverse c).map (fun i => l.length - 1 - i)

/-- The clean-up generateQuestions applies to the provider text:

  jsonStr.replace(/BTBTBTjson/g, "").replace(/BTBTBT/g, "").trim()

(BTBTBT stands for the three-backtick fence written literally below). -/
def cleanProviderText (text : List Char) : List Char :=
  trimChars (replaceAll ("```".data) [] (replaceAll ("```json".data) [] text))

/-- The aggressive JSON extraction of generateQuestions: the substring from
the first opening bracket to the last closing bracket, provided both exist
and the last close is strictly after the first open; `none` models the
thrown "Invalid JSON structure found". -/
def extractArray (l : List Char) : Option (List Char) :=
  match firstIndexOf l '[', lastIndexOf l ']' with
  | some firstOpen, some lastClose =>
    if firstOpen < lastClose then
      some ((l.drop firstOpen).take (lastClose + 1 - firstOpen))
    else none
  | _, _ => none

/-- A question as parsed from the provider JSON (before the adapter assigns
its own id). -/
structure RawQuestion where
  text : String
  options : List String
  correctAnswer : Nat
  subject : Subject
  topic : String
  difficulty : Difficulty
  explanation : String
  pyqTag : Option String := none
deriving DecidableEq, Repr

/-- The map step of generateQuestions: every parsed question gets a fresh
adapter-generated id, never trusting provider ids. -/
def assignId (idGen : Nat → String) (i : Nat) (raw : RawQuestion) : Question :=
  { id := idGen i, text := raw.text, options := raw.options,
    correctAnswer := raw.correctAnswer, subject := raw.subject,
    topic := raw.topic, difficulty := raw.difficulty,
    explanation := raw.explanation, pyqTag := raw.pyqTag }

/-- FALLBACK_QUESTIONS from services/geminiService.ts (apostrophes in the
prose are written as \x27 escapes; everything else is verbatim). -/
def FALLBACK_QUESTIONS : List Question :=
  [ { id := "fb-1",
      text := "If A:B = 3:4 and B:C = 8:9, then find A:C.",
      options := ["1:2", "3:2", "1:3", "2:3"],
      correctAnswer := 3,
      subject := Subject.mathematics,
      topic := "Ratio & Proportion",
      difficulty := Difficulty.easy,
      explanation := "Standard: A/C = (A/B)*(B/C) = (3/4)*(8/9) = 2/3. Shortcut: Write A:B (3:4) and B:C (8:9) below it. Multiply columns: A=3*8=24, C=4*9=36. 24:36 = 2:3.",
      pyqTag := some ("RRB NTPC 2016 Shift 1") },
    { id := "fb-2",
      text := "Which vitamin is water soluble?",
      options := ["Vitamin A", "Vitamin D", "Vitamin C", "Vitamin K"],
      correctAnswer := 2,
      subject := Subject.generalAwareness,
      topic := "General Science",
      difficulty := Difficulty.medium,
      explanation := "Vitamin B and C are water soluble. Mnemonic: \x27WBC\x27 -> Water Soluble = B & C. Fat soluble are \x27KEDA\x27.",
      pyqTag := some ("RRB NTPC 28 Dec 2020") },
    { id := "fb-3",
      text := "In a certain code, \x27ROCKET\x27 is written as \x27TCMQKV\x27. How is \x27DRIVER\x27 written in that code?",
      options := ["FTKXGP", "FTKIGT", "FTKXGT", "GUKYHU"],
      correctAnswer := 2,
      subject := Subject.generalIntelligenceReasoning,
      topic := "Coding-Decoding",
      difficulty := Difficulty.medium,
      explanation := "Pattern: +2, -2, +2, -2, +2, -2. R(+2)=T, O(-2)=M... Similarly, D(+2)=F, R(-2)=P. Correct Logic: R(+2)=T, O(-2)=M, C(+2)=E, K(-2)=I, E(+2)=G, T(-2)=R.",
      pyqTag := some ("RRB NTPC CBT-2 2022") } ]

/-- generateQuestions (services/geminiService.ts lines 752-828).  External
effects are parameters: `parseArray` is JSON.parse specialised to the
expected array shape (none = thrown SyntaxError), `idGen` produces the
fresh ids of the map step, `hasApiKey` is the process.env.API_KEY check,
and `providerText` is the awaited response text (none = the await threw;
the catch returns the fallback slice).  Result: the returned question list
paired with the question count put in the prompt (`none` when no request
is made because the key is missing). -/
def generateQuestions (parseArray : List Char → Option (List RawQuestion))
    (idGen : Nat → String) (hasApiKey : Bool)
    (providerText : Option (List Char)) (batchSize : Nat) :
    List Question × Option Nat :=
  if !hasApiKey then (FALLBACK_QUESTIONS, none)
  else
    let safeBatchSize := min batchSize 5
    match providerText with
    | none => (FALLBACK_QUESTIONS.take safeBatchSize, some safeBatchSize)
    | some text =>
      match extractArray (cleanProviderText text) with
      | none => (FALLBACK_QUESTIONS.take safeBatchSize, some safeBatchSize)
      | some sub =>
        match parseArray sub with
        | none => (FALLBACK_QUESTIONS.take safeBatchSize, some safeBatchSize)
        | some raws =>
          (raws.enum.map (fun p => assignId idGen p.1 p.2), some safeBatchSize)

/-- C5 counterexample.  The merge never truncates to the remaining budget,
and generateQuestions can return more questions than requested: with a
loaded set of 2 questions, a configured total of 3 and the loader
requesting batchSize = 1 (the remaining budget), the missing-key path
returns all 3 fallback questions and the merged active set has 5
questions, exceeding the configured total. -/
theorem mergeQuestions_exceeds_total :
    let q1 : Question :=
      { id := "q-1", text := "t1", options := [], correctAnswer := 0,
        subject := Subject.mathematics, topic := "x",
        difficulty := Difficulty.easy, explanation := "e" }
    let q2 : Question :=
      { id := "q-2", text := "t2", options := [], correctAnswer := 1,
        subject := Subject.generalAwareness, topic := "y",
        difficulty := Difficulty.medium, explanation := "e" }
    let prev : List Question := [q1, q2]
    let batch : List Question :=
      (generateQuestions (fun _ => none) (fun _ => "") false none 1).1
    prev.length ≤ 3
    ∧ (prev.map (fun q => q.id)).Nodup
    ∧ (batch.map (fun q => q.id)).Nodup
    ∧ ¬ ((mergeQuestions prev batch).length ≤ 3) := by
  intro q1 q2 prev batch
  decide

/-- C4 counterexample.  With no API key and batchSize = 1 the adapter
returns all 3 fallback questions, so the returned length exceeds the
requested batchSize. -/
theorem generateQuestions_length_exceeds_batch :
    ¬ ((generateQuestions (fun _ => none) (fun _ => "") false none 1).1.length ≤ 1) := by
  decide

/-- C4 (amended).  Whenever a provider request is made, the question count
written into the prompt is exactly min(batchSize, 5), hence at most 5.
When the API key is missing, no request is made and the full 3-question
fallback set is returned regardless of batchSize.  On a failed request or
unparsable response the result is the first min(batchSize, 5) fallback
questions, whose length is at most batchSize; on a successfully parsed
response the result has exactly one question per parsed element, with no
truncation to batchSize. -/
theorem generateQuestions_batch_cap (parseArray : List Char → Option (List RawQuestion))
    (idGen : Nat → String) (providerText : Option (List Char)) (batchSize : Nat) :
    (∀ n, (generateQuestions parseArray idGen true providerText batchSize).2 = some n →
        n = min batchSize 5 ∧ n ≤ 5)
    ∧ generateQuestions parseArray idGen false providerText batchSize
        = (FALLBACK_QUESTIONS, none)
    ∧ (providerText = none →
        generateQuestions parseArray idGen true providerText batchSize
          = (FALLBACK_QUESTIONS.take (min batchSize 5), some (min batchSize 5)))
    ∧ (∀ text, providerText = some text →
        (extractArray (cleanProviderText text) = none
          ∨ ∃ sub, extractArray (cleanProviderText text) = some sub ∧ parseArray sub = none) →
        generateQuestions parseArray idGen true providerText batchSize
          = (FALLBACK_QUESTIONS.take (min batchSize 5), some (min batchSize 5)))
    ∧ (∀ text sub raws, providerText = some text →
        extractArray (cleanProviderText text) = some sub →
        parseArray sub = some raws →
        generateQuestions parseArray idGen true providerText batchSize
          = (raws.enum.map (fun p => assignId idGen p.1 p.2), some (min batchSize 5)))
    ∧ (FALLBACK_QUESTIONS.take (min batchSize 5)).length ≤ batchSize := by
  refine ⟨?_, by simp [generateQuestions], ?_, ?_, ?_, ?_⟩
  · intro n hn
    unfold generateQuestions at hn
    rcases providerText with _ | text
    · simp at hn
      omega
    · rcases hext : extractArray (cleanProviderText text) with _ | sub
      · simp [hext] at hn
        omega
      · rcases hp : parseArray sub with _ | raws
        · simp [hext, hp] at hn
          omega
        · simp [hext, hp] at hn
          omega
  · intro hpt
    rw [hpt]
    simp [generateQuestions]
  · intro text hpt hfail
    rw [hpt]
    rcases hfail with hext | ⟨sub, hext, hp⟩
    · simp [generateQuestions, hext]
    · simp [generateQuestions, hext, hp]
  · intro text sub raws hpt hext hp
    rw [hpt]
    simp [generateQuestions, hext, hp]
  · have h3 : FALLBACK_QUESTIONS.length = 3 := by decide
    have := List.length_take (min batchSize 5) FALLBACK_QUESTIONS
    omega

/-- Witness for generateQuestions_batch_cap at batchSize = 4, exercising
the missing-key, failed-request and parsed-success conclusions. -/
theorem generateQuestions_batch_cap_witness :
    let raw : RawQuestion :=
      { text := "t", options := [], correctAnswer := 0,
        subject := Subject.mathematics, topic := "x",
        difficulty := Difficulty.easy, explanation := "e" }
    let parse1 : List Char → Option (List RawQuestion) := fun _ => some [raw]
    let gen1 : Nat → String := fun _ => "g"
    (∀ n, (generateQuestions parse1 gen1 true none 4).2 = some n →
        n = min 4 5 ∧ n ≤ 5)
    ∧ generateQuestions parse1 gen1 false none 4 = (FALLBACK_QUESTIONS, none)
    ∧ ((none : Option (List Char)) = none →
        generateQuestions parse1 gen1 true none 4
          = (FALLBACK_QUESTIONS.take (min 4 5), some (min 4 5)))
    ∧ (FALLBACK_QUESTIONS.take (min 4 5)).length ≤ 4 := by
  intro raw parse1 gen1
  refine ⟨(generateQuestions_batch_cap parse1 gen1 none 4).1,
    (generateQuestions_batch_cap parse1 gen1 none 4).2.1,
    fun h => (generateQuestions_batch_cap parse1 gen1 none 4).2.2.1 h,
    (generateQuestions_batch_cap parse1 gen1 none 4).2.2.2.2.2⟩

lemma firstIndexOf_append {p l : List Char} {c : Char} (hp : c ∉ p) :
    firstIndexOf (p ++ l) c = (firstIndexOf l c).map (fun i => i + p.length) := by
  induction p with
  | nil =>
    simp only [List.nil_append, List.length_nil]
    cases firstIndexOf l c <;> simp
  | cons c0 ps ih =>
    have hc0 : (c0 == c) = false := by
      have hne : c0 ≠ c := fun hc => hp (hc ▸ List.mem_cons_self c0 ps)
      simpa using hne
    have hps : c ∉ ps := fun hc => hp (List.mem_cons_of_mem c0 hc)
    rw [List.cons_append, firstIndexOf, if_neg (by simp [hc0]), ih hps]
    cases firstIndexOf l c with
    | none => simp
    | some i =>
      simp only [Option.map_some', List.length_cons]
      rfl

lemma firstIndexOf_cons_self (c : Char) (l : List Char) :
    firstIndexOf (c :: l) c = some 0 := by
  rw [firstIndexOf, if_pos (by simp)]

lemma extractArray_wrapped {p1 body p2 : List Char}
    (h1 : '[' ∉ p1) (h2 : ']' ∉ p2)
    (hh : body.head? = some '[') (hl : body.getLast? = some ']')
    (hlen : 2 ≤ body.length) :
    extractArray (p1 ++ (body ++ p2)) = some body := by
  have hfirst : firstIndexOf (p1 ++ (body ++ p2)) '[' = some p1.length := by
    rw [firstIndexOf_append h1]
    rcases body with _ | ⟨b0, bt⟩
    · simp at hh
    · have hb0 : b0 = '[' := by simpa using hh
      rw [List.cons_append, hb0, firstIndexOf_cons_self]
      simp
  have hlast : lastIndexOf (p1 ++ (body ++ p2)) ']'
      = some (p1.length + body.length - 1) := by
    unfold lastIndexOf
    have hrevshape : (p1 ++ (body ++ p2)).reverse
        = p2.reverse ++ (body.reverse ++ p1.reverse) := by
      rw [List.reverse_append, List.reverse_append, List.append_assoc]
    rw [hrevshape]
    have h2r : ']' ∉ p2.reverse := by
      rw [List.mem_reverse]
      exact h2
    rw [firstIndexOf_append h2r]
    have hrevhead : body.reverse.head? = some ']' := by
      rw [List.head?_reverse]
      exact hl
    rcases hrev : body.reverse with _ | ⟨r0, rt⟩
    · rw [hrev] at hrevhead
      simp at hrevhead
    · rw [hrev] at hrevhead
      have hr0 : r0 = ']' := by simpa using hrevhead
      rw [List.cons_append, hr0, firstIndexOf_cons_self]
      simp only [Option.map_some']
      congr 1
      simp only [List.length_append, List.length_reverse]
      omega
  simp only [extractArray, hfirst, hlast]
  have hcond : p1.length < p1.length + body.length - 1 := by omega
  rw [if_pos hcond]
  have harith : p1.length + body.length - 1 + 1 - p1.length = body.length := by omega
  rw [harith]
  have hdrop : (p1 ++ (body ++ p2)).drop p1.length = body ++ p2 :=
    List.drop_left p1 (body ++ p2)
  rw [hdrop, List.take_left body p2]

/-- C8 counterexample.  For unparsable provider output and batchSize = 1
the adapter returns only the first fallback question, not the fallback set
unchanged: the slice `FALLBACK_QUESTIONS.slice(0, safeBatchSize)` truncates
the set whenever batchSize < 3. -/
theorem generateQuestions_fallback_truncated :
    (generateQuestions (fun _ => none) (fun _ => "") true (some ("junk".data)) 1).1
      ≠ FALLBACK_QUESTIONS := by
  decide

/-- C8 (amended).  generateQuestions strips the code-fence wrapping, takes
the substring from the first opening bracket to the last closing bracket,
and hands exactly that substring to the JSON parser: if the cleaned text is
prose (without opening brackets) followed by a bracketed array body
followed by prose (without closing brackets), the parsed body is returned,
one question per element.  When parsing cannot succeed on any substring the
error never escapes: the result is the first min(batchSize, 5) fallback
questions, each unchanged in content, which is the whole fallback set
whenever batchSize is at least 3. -/
theorem generateQuestions_bracket_extraction
    (parseArray : List Char → Option (List RawQuestion))
    (idGen : Nat → String) (batchSize : Nat) :
    (∀ text p1 body p2 raws,
        cleanProviderText text = p1 ++ (body ++ p2) →
        '[' ∉ p1 → ']' ∉ p2 →
        body.head? = some '[' → body.getLast? = some ']' → 2 ≤ body.length →
        parseArray body = some raws →
        (generateQuestions parseArray idGen true (some text) batchSize).1
          = raws.enum.map (fun p => assignId idGen p.1 p.2))
    ∧ (∀ text, (∀ sub, parseArray sub = none) →
        (generateQuestions parseArray idGen true (some text) batchSize).1
          = FALLBACK_QUESTIONS.take (min batchSize 5))
    ∧ (3 ≤ batchSize →
        FALLBACK_QUESTIONS.take (min batchSize 5) = FALLBACK_QUESTIONS) := by
  refine ⟨?_, ?_, ?_⟩
  · intro text p1 body p2 raws hclean hp1 hp2 hh hl hlen hparse
    have hext : extractArray (cleanProviderText text) = some body := by
      rw [hclean]
      exact extractArray_wrapped hp1 hp2 hh hl hlen
    simp [generateQuestions, hext, hparse]
  · intro text hparse
    rcases hext : extractArray (cleanProviderText text) with _ | sub
    · simp [generateQuestions, hext]
    · simp [generateQuestions, hext, hparse sub]
  · intro h3
    apply List.take_of_length_le
    have : FALLBACK_QUESTIONS.length = 3 := by decide
    omega

/-- Witness for generateQuestions_bracket_extraction on the wrapped text
"ok [1] end" with a one-element parse oracle, plus the failure and
full-set conclusions at batchSize = 5. -/
theorem generateQuestions_bracket_extraction_witness :
    let textW : List Char := ("ok [1] end").data
    let p1W : List Char := ("ok ").data
    let bodyW : List Char := ("[1]").data
    let p2W : List Char := (" end").data
    let raw : RawQuestion :=
      { text := "t", options := [], correctAnswer := 0,
        subject := Subject.mathematics, topic := "x",
        difficulty := Difficulty.easy, explanation := "e" }
    let parseW : List Char → Option (List RawQuestion) :=
      fun sub => if sub = bodyW then some [raw] else none
    let genW : Nat → String := fun _ => "gen-1"
    (generateQuestions parseW genW true (some textW) 5).1
        = ([raw] : List RawQuestion).enum.map (fun p => assignId genW p.1 p.2)
    ∧ (generateQuestions (fun _ => none) genW true (some textW) 5).1
        = FALLBACK_QUESTIONS.take (min 5 5)
    ∧ FALLBACK_QUESTIONS.take (min 5 5) = FALLBACK_QUESTIONS := by
  intro textW p1W bodyW p2W raw parseW genW
  refine ⟨(generateQuestions_bracket_extraction parseW genW 5).1
      textW p1W bodyW p2W [raw] (by decide) (by decide) (by decide)
      (by decide) (by decide) (by decide) (by decide),
    (generateQuestions_bracket_extraction (fun _ => none) genW 5).2.1
      textW (fun _ => rfl),
    (generateQuestions_bracket_extraction parseW genW 5).2.2 (by decide)⟩

/- ------------------------------------------------------------------ -/
/- Progressive loader (App.tsx, loadMoreQuestions /                    -/
/- handleRequestMoreQuestions)                                         -/
/- ------------------------------------------------------------------ -/

/-- Loader-relevant state of App: loaded question count, the configured
target, the isFetchingRef latch, the number of generateQuestions calls
outstanding, the cumulative count of requests issued, and whether a 500ms
continuation (the setTimeout inside setQuestions) is pending. -/
structure LoaderState where
  loaded : Nat
  target : Nat
  latch : Bool
  inFlight : Nat
  requests : Nat
  pendingCont : Bool
deriving DecidableEq, Repr

/-- The synchronous prefix of loadMoreQuestions (App.tsx lines 1138-1150):

  if (currentCount >= config.totalQuestions) return;
  if (isFetchingRef.current) return;
  isFetchingRef.current = true;
  ... await generateQuestions(...)    -- request goes out

called with currentCount equal to the loaded count at call time. -/
def loadMoreCall (s : LoaderState) : LoaderState :=
  if s.target ≤ s.loaded then s
  else if s.latch then s
  else { s with latch := true, inFlight := s.inFlight + 1,
                requests := s.requests + 1 }

/-- Events the loader reacts to.
trigger: a call of loadMoreQuestions (from handleStartTest or from
handleRequestMoreQuestions, whose own guard only strengthens the checks
loadMoreCall already performs).
respond fresh: the awaited generateQuestions resolves and the setQuestions
merge adds `fresh` new (non-colliding) questions; if the updated count is
still short of the target a 500ms continuation is scheduled (lines
1150-1167).
contFire: the scheduled setTimeout body runs: it clears the latch and calls
loadMoreQuestions again with the updated count (lines 1160-1163).
fail: the awaited call throws; the catch clears the latch without
rescheduling (lines 1172-1175). -/
inductive LoaderEvent
  | trigger
  | respond (fresh : Nat)
  | contFire
  | fail
deriving DecidableEq, Repr

/-- One atomic step of the loader, from the source as described on each
event above. -/
def loaderStep (s : LoaderState) (e : LoaderEvent) : LoaderState :=
  match e with
  | LoaderEvent.trigger => loadMoreCall s
  | LoaderEvent.respond fresh =>
    if s.inFlight = 0 then s
    else
      { s with loaded := s.loaded + fresh, inFlight := s.inFlight - 1,
               pendingCont := decide (s.loaded + fresh < s.target) }
  | LoaderEvent.contFire =>
    if s.pendingCont then
      loadMoreCall { s with pendingCont := false, latch := false }
    else s
  | LoaderEvent.fail =>
    if s.inFlight = 0 then s
    else { s with inFlight := s.inFlight - 1, latch := false }

/-- App state at mount for a session with the given target: nothing loaded,
latch clear, no request in flight or issued, no continuation pending. -/
def initLoader (target : Nat) : LoaderState :=
  { loaded := 0, target := target, latch := false, inFlight := 0,
    requests := 0, pendingCont := false }

/-- States reachable from `s0` by loader steps. -/
inductive LoaderReach (s0 : LoaderState) : LoaderState → Prop
  | refl : LoaderReach s0 s0
  | step {s : LoaderState} (e : LoaderEvent) :
      LoaderReach s0 s → LoaderReach s0 (loaderStep s e)

/-- The inductive invariant of the loader: at most one request in flight, a
clear latch means nothing in flight, and a pending continuation means the
response already landed (nothing in flight, latch still held, target not
yet reached). -/
def LoaderInv (s : LoaderState) : Prop :=
  s.inFlight ≤ 1
  ∧ (s.latch = false → s.inFlight = 0)
  ∧ (s.pendingCont = true → s.inFlight = 0 ∧ s.latch = true ∧ s.loaded < s.target)

lemma loaderInv_init (target : Nat) : LoaderInv (initLoader target) := by
  refine ⟨by simp [initLoader], fun _ => by simp [initLoader], fun h => ?_⟩
  simp [initLoader] at h

lemma loaderInv_loadMoreCall {s : LoaderState} (h : LoaderInv s) :
    LoaderInv (loadMoreCall s) := by
  obtain ⟨h1, h2, h3⟩ := h
  unfold loadMoreCall
  by_cases ht : s.target ≤ s.loaded
  · rw [if_pos ht]
    exact ⟨h1, h2, h3⟩
  · rw [if_neg ht]
    by_cases hl : s.latch = true
    · rw [if_pos hl]
      exact ⟨h1, h2, h3⟩
    · rw [if_neg hl]
      have hlf : s.latch = false := by
        cases hlv : s.latch
        · rfl
        · exact absurd hlv hl
      have hf0 : s.inFlight = 0 := h2 hlf
      refine ⟨?_, ?_, ?_⟩
      · show s.inFlight + 1 ≤ 1
        omega
      · intro hc
        simp at hc
      · intro hpc
        have hlt := (h3 hpc).2.1
        rw [hlf] at hlt
        simp at hlt

lemma loaderInv_step {s : LoaderState} (h : LoaderInv s) (e : LoaderEvent) :
    LoaderInv (loaderStep s e) := by
  obtain ⟨h1, h2, h3⟩ := h
  cases e with
  | trigger => exact loaderInv_loadMoreCall ⟨h1, h2, h3⟩
  | respond fresh =>
    show LoaderInv (if s.inFlight = 0 then s else _)
    by_cases hf : s.inFlight = 0
    · rw [if_pos hf]
      exact ⟨h1, h2, h3⟩
    · rw [if_neg hf]
      refine ⟨?_, ?_, ?_⟩
      · show s.inFlight - 1 ≤ 1
        omega
      · intro hc
        exact absurd (h2 hc) hf
      · intro hpc
        refine ⟨?_, ?_, ?_⟩
        · show s.inFlight - 1 = 0
          omega
        · show s.latch = true
          cases hlv : s.latch
          · exact absurd (h2 hlv) hf
          · rfl
        · show s.loaded + fresh < s.target
          exact of_decide_eq_true hpc
  | contFire =>
    show LoaderInv (if s.pendingCont then _ else s)
    by_cases hp : s.pendingCont = true
    · rw [if_pos hp]
      apply loaderInv_loadMoreCall
      obtain ⟨hf0, hlt, hlo⟩ := h3 hp
      refine ⟨h1, fun _ => hf0, fun hc => ?_⟩
      simp at hc
    · rw [if_neg hp]
      exact ⟨h1, h2, h3⟩
  | fail =>
    show LoaderInv (if s.inFlight = 0 then s else _)
    by_cases hf : s.inFlight = 0
    · rw [if_pos hf]
      exact ⟨h1, h2, h3⟩
    · rw [if_neg hf]
      refine ⟨?_, fun _ => ?_, fun hpc => ?_⟩
      · show s.inFlight - 1 ≤ 1
        omega
      · show s.inFlight - 1 = 0
        omega
      · exact absurd (h3 hpc).1 hf

lemma loaderInv_reach {target : Nat} {s : LoaderState}
    (h : LoaderReach (initLoader target) s) : LoaderInv s := by
  induction h with
  | refl => exact loaderInv_init target
  | step e _ ih => exact loaderInv_step ih e

lemma loaderStep_requests_stop {s : LoaderState} (hinv : LoaderInv s)
    (hdone : s.target ≤ s.loaded) (e : LoaderEvent) :
    (loaderStep s e).requests = s.requests := by
  cases e with
  | trigger =>
    show (loadMoreCall s).requests = s.requests
    unfold loadMoreCall
    rw [if_pos hdone]
  | respond fresh =>
    show (if s.inFlight = 0 then s else _).requests = s.requests
    by_cases hf : s.inFlight = 0
    · rw [if_pos hf]
    · rw [if_neg hf]
  | contFire =>
    show (if s.pendingCont then _ else s).requests = s.requests
    by_cases hp : s.pendingCont = true
    · have := (hinv.2.2 hp).2.2
      omega
    · rw [if_neg hp]
  | fail =>
    show (if s.inFlight = 0 then s else _).requests = s.requests
    by_cases hf : s.inFlight = 0
    · rw [if_pos hf]
    · rw [if_neg hf]

/-- Ceiling division: the number of size-B batches needed to cover a. -/
def ceilDiv (a b : Nat) : Nat := (a + b - 1) / b

/-- One round of the fixed-size-batch run: the in-flight request resolves
with B fresh questions and the scheduled continuation fires. -/
def loaderRound (B : Nat) (s : LoaderState) : LoaderState :=
  loaderStep (loaderStep s (LoaderEvent.respond B)) LoaderEvent.contFire

/-- The property-test run: start the loader once from a fresh session, then
let n rounds of fixed-size-B batches play out. -/
def runFixed (target B n : Nat) : LoaderState :=
  (loaderRound B)^[n] (loaderStep (initLoader target) LoaderEvent.trigger)

/-- Loader state with one request in flight for a session at c of target. -/
def inFlightState (target c r : Nat) : LoaderState :=
  { loaded := c, target := target, latch := true, inFlight := 1,
    requests := r, pendingCont := false }

/-- Loader state after the final batch: nothing in flight, nothing pending
(the latch is never cleared after the last response). -/
def doneState (target c r : Nat) : LoaderState :=
  { loaded := c, target := target, latch := true, inFlight := 0,
    requests := r, pendingCont := false }

lemma loaderRound_done (B target c r : Nat) :
    loaderRound B (doneState target c r) = doneState target c r := by
  unfold loaderRound loaderStep doneState
  simp

lemma loaderRound_inFlight (B target c r : Nat) :
    loaderRound B (inFlightState target c r)
      = if c + B < target then inFlightState target (c + B) (r + 1)
        else doneState target (c + B) r := by
  unfold loaderRound loaderStep loadMoreCall inFlightState doneState
  by_cases hcb : c + B < target
  · have hnle : ¬ target ≤ c + B := by omega
    simp [hcb, hnle]
  · simp [hcb]

lemma ceilDiv_of_le {x B : Nat} (hB : 0 < B) (hx1 : 1 ≤ x) (hx2 : x ≤ B) :
    ceilDiv x B = 1 := by
  unfold ceilDiv
  have hrw : x + B - 1 = (x - 1) + B := by omega
  rw [hrw, Nat.add_div_right _ hB, Nat.div_eq_of_lt (by omega)]

lemma ceilDiv_of_gt {x B : Nat} (hB : 0 < B) (hx : B < x) :
    ceilDiv x B = ceilDiv (x - B) B + 1 := by
  unfold ceilDiv
  have h1 : x + B - 1 = (x - 1) + B := by omega
  have h2 : x - B + B - 1 = (x - B - 1) + B := by omega
  rw [h1, h2, Nat.add_div_right _ hB, Nat.add_div_right _ hB]
  have h3 : x - 1 = (x - B - 1) + B := by omega
  rw [h3, Nat.add_div_right _ hB]

lemma runRounds_inFlight (B target : Nat) (hB : 0 < B) :
    ∀ n c r, c < target → target - c ≤ n →
      (loaderRound B)^[n] (inFlightState target c r)
        = doneState target (c + ceilDiv (target - c) B * B)
            (r + ceilDiv (target - c) B - 1)
      ∧ target ≤ c + ceilDiv (target - c) B * B := by
  intro n
  induction n with
  | zero =>
    intro c r hc hn
    exfalso
    omega
  | succ n ih =>
    intro c r hc hn
    rw [Function.iterate_succ_apply, loaderRound_inFlight B target c r]
    by_cases hcb : c + B < target
    · rw [if_pos hcb]
      obtain ⟨ihe, ihl⟩ := ih (c + B) (r + 1) hcb (by omega)
      have hceil : ceilDiv (target - c) B = ceilDiv (target - (c + B)) B + 1 := by
        have hx : B < target - c := by omega
        have hsub : target - (c + B) = target - c - B := by omega
        rw [hsub]
        exact ceilDiv_of_gt hB hx
      have e1 : c + ceilDiv (target - c) B * B
          = c + B + ceilDiv (target - (c + B)) B * B := by
        rw [hceil]
        ring
      have e2 : r + ceilDiv (target - c) B - 1
          = r + 1 + ceilDiv (target - (c + B)) B - 1 := by
        rw [hceil]
        omega
      rw [e1, e2]
      exact ⟨ihe, by omega⟩
    · rw [if_neg hcb]
      have hceil1 : ceilDiv (target - c) B = 1 :=
        ceilDiv_of_le hB (by omega) (by omega)
      have e1 : c + ceilDiv (target - c) B * B = c + B := by
        rw [hceil1]
        ring
      have e2 : r + ceilDiv (target - c) B - 1 = r := by
        rw [hceil1]
        omega
      rw [e1, e2, Function.iterate_fixed (loaderRound_done B target (c + B) r) n]
      exact ⟨rfl, by omega⟩

lemma loadMoreCall_init (target : Nat) (ht : 0 < target) :
    loaderStep (initLoader target) LoaderEvent.trigger = inFlightState target 0 1 := by
  show loadMoreCall (initLoader target) = _
  unfold loadMoreCall initLoader inFlightState
  have hnle : ¬ target ≤ 0 := by omega
  simp [hnle]

lemma reach_runFixed (target B n : Nat) :
    LoaderReach (initLoader target) (runFixed target B n) := by
  unfold runFixed
  induction n with
  | zero =>
    exact LoaderReach.step LoaderEvent.trigger LoaderReach.refl
  | succ n ih =>
    rw [Function.iterate_succ_apply']
    exact LoaderReach.step LoaderEvent.contFire
      (LoaderReach.step (LoaderEvent.respond B) ih)

/-- C2.  (a) In every reachable loader state at most one content-generation
request is in flight (the isFetchingRef latch is never bypassed).  (b) Once
the loaded count has reached the target, no event makes the loader issue
another request.  (c) In a run where every batch returns a fixed number B
of fresh, non-colliding questions, the loader makes exactly
ceil(target / B) requests, ends with at least target questions loaded, and
issues no further request on any subsequent event. -/
theorem progressive_loader_single_flight :
    (∀ target s, LoaderReach (initLoader target) s → s.inFlight ≤ 1)
    ∧ (∀ target s e, LoaderReach (initLoader target) s → s.target ≤ s.loaded →
        (loaderStep s e).requests = s.requests)
    ∧ (∀ target B, 0 < target → 0 < B →
        (runFixed target B target).requests = ceilDiv target B
        ∧ target ≤ (runFixed target B target).loaded
        ∧ ∀ e, (loaderStep (runFixed target B target) e).requests
            = (runFixed target B target).requests) := by
  refine ⟨?_, ?_, ?_⟩
  · intro target s hreach
    exact (loaderInv_reach hreach).1
  · intro target s e hreach hdone
    exact loaderStep_requests_stop (loaderInv_reach hreach) hdone e
  · intro target B ht hB
    obtain ⟨hrun, hcov⟩ := runRounds_inFlight B target hB target 0 1 ht (by omega)
    have hfinal : runFixed target B target
        = doneState target (0 + ceilDiv (target - 0) B * B)
            (1 + ceilDiv (target - 0) B - 1) := by
      unfold runFixed
      rw [loadMoreCall_init target ht]
      exact hrun
    have hreq : (runFixed target B target).requests = ceilDiv target B := by
      rw [hfinal]
      show 1 + ceilDiv (target - 0) B - 1 = ceilDiv target B
      simp
    have hload : target ≤ (runFixed target B target).loaded := by
      rw [hfinal]
      show target ≤ 0 + ceilDiv (target - 0) B * B
      simpa using hcov
    refine ⟨hreq, hload, ?_⟩
    intro e
    apply loaderStep_requests_stop (loaderInv_reach (reach_runFixed target B target))
    rw [hfinal]
    show target ≤ 0 + ceilDiv (target - 0) B * B
    simpa using hcov

/-- Witness for progressive_loader_single_flight at target 12, batch 5:
3 requests, full coverage, and no further request on any later event. -/
theorem progressive_loader_single_flight_witness :
    (loaderStep (initLoader 7) LoaderEvent.trigger).inFlight ≤ 1
    ∧ (loaderStep (initLoader 0) LoaderEvent.trigger).requests
        = (initLoader 0).requests
    ∧ ((runFixed 12 5 12).requests = ceilDiv 12 5
        ∧ 12 ≤ (runFixed 12 5 12).loaded
        ∧ ∀ e, (loaderStep (runFixed 12 5 12) e).requests
            = (runFixed 12 5 12).requests)
    ∧ ceilDiv 12 5 = 3 := by
  refine ⟨progressive_loader_single_flight.1 7 _
      (LoaderReach.step LoaderEvent.trigger LoaderReach.refl),
    progressive_loader_single_flight.2.1 0 _ LoaderEvent.trigger
      LoaderReach.refl (by decide),
    progressive_loader_single_flight.2.2 12 5 (by decide) (by decide),
    by decide⟩
